import Mathlib

/-!
# Verification of `src/export.js` (dice strategy export/import)

Shallow embedding of the strategy validation and import/export pipeline.

JavaScript runtime values are modelled by `JSVal`; numbers are modelled by
`Rat` (the script never does arithmetic on them, it only tests
`typeof v === "number"` (written with double quotes here), definedness and truthiness, so the carrier of
numbers is irrelevant to every property proved here; `NaN` plays no role in
any claim). Member access `v.f` is modelled by `getField`, which raises a
`TypeError` (an `Except.error`) exactly when the receiver is `null` or
`undefined`, returns the looked-up field on objects, and returns `undefined`
on other values (none of the accessed field names is a built-in property of
a primitive, a string or an array).

Host facilities that are external to the repository (the `JSON` codec,
`StrategyConverter` — referenced but not defined in the file —, and the
current date used in the download filename) are collected in a `JSEnv`
record; `localStorage` is modelled as a `Store := String → Option String`
threaded through the manager operations.
-/

inductive JSVal : Type where
  | undefined : JSVal
  | null : JSVal
  | bool : Bool → JSVal
  | num : Rat → JSVal
  | str : String → JSVal
  | arr : List JSVal → JSVal
  | obj : List (String × JSVal) → JSVal

/-- First-match association lookup on the field list of an object (a parsed JSON
object has each key at most once, but the model does not rely on that). -/
def lookupField : List (String × JSVal) → String → Option JSVal
  | [], _ => none
  | (k, v) :: rest, f => if k = f then some v else lookupField rest f

/-- JavaScript truthiness. `undefined`, `null`, `false`, `0` and `""` are
falsy; every object and array is truthy. -/
def truthy : JSVal → Bool
  | .undefined => false
  | .null => false
  | .bool b => b
  | .num q => decide (q ≠ 0)
  | .str s => decide (s ≠ "")
  | .arr _ => true
  | .obj _ => true

/-- `typeof v === "object"` (true for `null`, arrays and plain objects). -/
def isObjectType : JSVal → Bool
  | .null => true
  | .arr _ => true
  | .obj _ => true
  | _ => false

/-- `typeof v === "number"`. -/
def isNumber : JSVal → Bool
  | .num _ => true
  | _ => false

/-- `typeof v === "boolean"`. -/
def isBoolean : JSVal → Bool
  | .bool _ => true
  | _ => false

/-- `v === undefined`. -/
def isUndefined : JSVal → Bool
  | .undefined => true
  | _ => false

/-- `Array.isArray(v)`. -/
def isArray : JSVal → Bool
  | .arr _ => true
  | _ => false

/-- The element list of an array value (only ever used under an
`Array.isArray` guard). -/
def elemsOf : JSVal → List JSVal
  | .arr xs => xs
  | _ => []

/-- Member access `v.f`: a `TypeError` on `null`/`undefined`, field lookup
(missing field gives `undefined`) on objects, `undefined` on every other
value. -/
def getField : JSVal → String → Except String JSVal
  | .undefined, _ => .error "TypeError: Cannot read properties of undefined"
  | .null, _ => .error "TypeError: Cannot read properties of null"
  | .obj fields, f => .ok ((lookupField fields f).getD .undefined)
  | _, _ => .ok .undefined

/-- The value `v.f` evaluates to when the receiver is an object or an array
(the total companion of `getField`). -/
def jsGet : JSVal → String → JSVal
  | .obj fields, f => (lookupField fields f).getD .undefined
  | _, _ => .undefined

/-- `list.includes(v)` for a list of string literals: string-equality
membership, false on any non-string value. -/
def includesStr (l : List String) : JSVal → Bool
  | .str s => decide (s ∈ l)
  | _ => false

/-- `xs.every(p)` for a predicate that may throw: scans left to right,
stops at the first falsy result, propagates the first exception. -/
def jsEvery (p : JSVal → Except String Bool) : List JSVal → Except String Bool
  | [] => .ok true
  | x :: xs =>
    match p x with
    | .error e => .error e
    | .ok false => .ok false
    | .ok true => jsEvery p xs

/-- `src/export.js` line 5: the single localStorage key the script touches. -/
def STRATEGY_KEY : String := "strategies_saved"

/-- The `localStorage` of the browser, restricted to what the script observes:
a partial map from keys to stored strings. -/
def Store : Type := String → Option String

/-- `localStorage.setItem k v`. -/
def setItem (k v : String) (s : Store) : Store :=
  fun k' => if k' = k then some v else s k'

/-- Host facilities external to the repository: the `JSON` built-in codec,
the `StrategyConverter` shorthand codec (referenced by the script but
defined elsewhere), and the current date used in download filenames. -/
structure JSEnv : Type where
  /-- `JSON.parse`: either a parsed value or a thrown `SyntaxError` message. -/
  jsonParse : String → Except String JSVal
  /-- `JSON.stringify`. -/
  jsonStringify : JSVal → String
  /-- `StrategyConverter.toShorthand` (external codec, may throw). -/
  toShorthand : JSVal → Except String JSVal
  /-- `StrategyConverter.fromShorthand` (external codec, may throw). -/
  fromShorthand : JSVal → Except String JSVal
  /-- the date part of `new Date().toISOString()`. -/
  today : String

namespace StrategyValidator

/-- Lines 8-18. -/
def validConditionTypes : List String :=
  ["every", "everyStreakOf", "streakGreaterThan", "streakLowerThan",
   "firstStreakOf", "greaterThan", "greaterThanOrEqualTo", "lessThan",
   "lessThanOrEqualTo"]

/-- Line 20. -/
def validBetTypes : List String := ["bet", "win", "lose"]

/-- Line 21. -/
def validProfitTypes : List String := ["profit", "loss", "balance"]

/-- Lines 23-38. -/
def validActionTypes : List String :=
  ["setAmount", "setWinChance", "increaseWinChanceBy", "decreaseWinChanceBy",
   "increaseByPercentage", "decreaseByPercentage", "addToAmount",
   "subtractFromAmount", "addToWinChance", "subtractFromWinChance",
   "switchOverUnder", "resetAmount", "resetWinChance", "stop"]

/-- Lines 57-88: `validateCondition`. Presence of `type`, `betType` and
`profitType` is tested by truthiness, presence of `value` by
`=== undefined`; then the three enumerated fields are tested against their
closed vocabularies and `value` against `typeof === "number"`. -/
def validateCondition (condition : JSVal) : Except String Bool :=
  match getField condition "type" with
  | .error e => .error e
  | .ok ty =>
  match getField condition "value" with
  | .error e => .error e
  | .ok value =>
  match getField condition "betType" with
  | .error e => .error e
  | .ok betType =>
  match getField condition "profitType" with
  | .error e => .error e
  | .ok profitType =>
  if !truthy ty || isUndefined value || !truthy betType || !truthy profitType then .ok false
  else if !includesStr validConditionTypes ty then .ok false
  else if !includesStr validBetTypes betType then .ok false
  else if !includesStr validProfitTypes profitType then .ok false
  else if !isNumber value then .ok false
  else .ok true

/-- Lines 90-110: `validateAction`. Presence of `type` is tested by
truthiness, presence of `value` by `=== undefined`; then `type` against the
14-item vocabulary and `value` against `typeof === "number"`. -/
def validateAction (action : JSVal) : Except String Bool :=
  match getField action "type" with
  | .error e => .error e
  | .ok ty =>
  match getField action "value" with
  | .error e => .error e
  | .ok value =>
  if !truthy ty || isUndefined value then .ok false
  else if !includesStr validActionTypes ty then .ok false
  else if !isNumber value then .ok false
  else .ok true

/-- Lines 40-55: `validateBlock`. All four fields are tested by truthiness
(`if (!block.id || !block.type || !block.on || !block.do)`), then the block
type against the two-item list `bets`/`profit`, then
`this.validateCondition(block.on) && this.validateAction(block.do)` with
JavaScript short-circuit evaluation. -/
def validateBlock (block : JSVal) : Except String Bool :=
  match getField block "id" with
  | .error e => .error e
  | .ok id =>
  match getField block "type" with
  | .error e => .error e
  | .ok ty =>
  match getField block "on" with
  | .error e => .error e
  | .ok onF =>
  match getField block "do" with
  | .error e => .error e
  | .ok doF =>
  if !truthy id || !truthy ty || !truthy onF || !truthy doF then .ok false
  else if !includesStr ["bets", "profit"] ty then .ok false
  else
    match validateCondition onF with
    | .error e => .error e
    | .ok false => .ok false
    | .ok true => validateAction doF

end StrategyValidator

namespace StrategyManager

/-- Lines 114-135: `validateStrategy`. `!strategy || typeof strategy !==
"object"` rejects everything but (non-null) objects and arrays; then
`label` is tested by truthiness and `blocks` by `Array.isArray`;
`isDefault` must satisfy `typeof === "boolean"`; finally
`strategy.blocks.every(block => StrategyValidator.validateBlock(block))`. -/
def validateStrategy (strategy : JSVal) : Except String Bool :=
  if !truthy strategy || !isObjectType strategy then .ok false
  else
    match getField strategy "label" with
    | .error e => .error e
    | .ok label =>
    match getField strategy "blocks" with
    | .error e => .error e
    | .ok blocks =>
    if !truthy label || !isArray blocks then .ok false
    else
      match getField strategy "isDefault" with
      | .error e => .error e
      | .ok isDefault =>
      if !isBoolean isDefault then .ok false
      else jsEvery StrategyValidator.validateBlock (elemsOf blocks)

/-- Line 164: the download filename `strategies_<format>_<date>.json`. -/
def fileName (format today : String) : String :=
  "strategies_" ++ format ++ "_" ++ today ++ ".json"

/-- Lines 139-172 of `exportStrategies`, after the single store read
(line 139) has produced `stored`. `!strategies` is falsy for an absent key
and for the empty string; a parse error or a `TypeError` thrown inside
`every` propagates (the `catch` on line 173 rethrows); a well-formed but
invalid array throws `Invalid strategy format detected`; otherwise the
export payload is the raw stored text (or its shorthand re-encoding), which
is both downloaded once and returned. -/
def exportCore (env : JSEnv) (format : String) (stored : Option String) :
    Except String (Option String) × List (String × String) :=
  match stored with
  | none => (.ok none, [])
  | some txt =>
    if txt = "" then (.ok none, [])
    else
      match env.jsonParse txt with
      | .error e => (.error e, [])
      | .ok parsed =>
        match (if isArray parsed then jsEvery validateStrategy (elemsOf parsed) else .ok false) with
        | .error e => (.error e, [])
        | .ok false => (.error "Invalid strategy format detected", [])
        | .ok true =>
          match (if format = "shorthand"
                 then (env.toShorthand parsed).map env.jsonStringify
                 else .ok txt) with
          | .error e => (.error e, [])
          | .ok exportData =>
            (.ok (some exportData), [(fileName format env.today, exportData)])

/-- Outcome of one `exportStrategies` call: the returned/thrown value, the
downloads triggered, and the store afterwards. -/
structure ExportOutcome : Type where
  result : Except String (Option String)
  downloads : List (String × String)
  store : Store

/-- Lines 137-177: `exportStrategies`. Its only store interaction is
`localStorage.getItem(STRATEGY_KEY)` on line 139; it never writes. -/
def exportStrategies (env : JSEnv) (format : String) (store : Store) : ExportOutcome :=
  let r := exportCore env format (store STRATEGY_KEY)
  ⟨r.1, r.2, store⟩

/-- Lines 190-201 of `importStrategies`: the body of the `onload` handler
up to the store write. Parse, optional shorthand decode, then
`!Array.isArray(parsedContent) || !parsedContent.every(this.validateStrategy)`
throws `Invalid strategy format`. -/
def importPipeline (env : JSEnv) (content : String) (format : String) :
    Except String JSVal :=
  match env.jsonParse content with
  | .error e => .error e
  | .ok parsed₀ =>
    match (if format = "shorthand" then env.fromShorthand parsed₀ else .ok parsed₀) with
    | .error e => .error e
    | .ok parsed =>
      match (if isArray parsed then jsEvery validateStrategy (elemsOf parsed) else .ok false) with
      | .error e => .error e
      | .ok false => .error "Invalid strategy format"
      | .ok true => .ok parsed

/-- Outcome of one `importStrategies` call: the resolved value or the
rejection message, and the store afterwards. -/
structure ImportOutcome : Type where
  result : Except String JSVal
  store : Store

/-- Lines 179-212: `importStrategies`. The selected file is modelled as
`none` (no file), `some (.error e)` (the reader fired `onerror`) or
`some (.ok content)` (the reader delivered `content`). A missing file
rejects with `No file selected`, a read error with `Failed to read file`;
any exception inside the `onload` handler is wrapped as
`Invalid strategy file: <message>`. Only the success path reaches
`localStorage.setItem(STRATEGY_KEY, JSON.stringify(parsedContent))`
(line 203). -/
def importStrategies (env : JSEnv) (fileContent : Option (Except String String))
    (format : String) (store : Store) : ImportOutcome :=
  match fileContent with
  | none => ⟨.error "No file selected", store⟩
  | some (.error _) => ⟨.error "Failed to read file", store⟩
  | some (.ok content) =>
    match importPipeline env content format with
    | .error e => ⟨.error ("Invalid strategy file: " ++ e), store⟩
    | .ok parsed => ⟨.ok parsed, setItem STRATEGY_KEY (env.jsonStringify parsed) store⟩

/-- Lines 214-235 of `getStrategies`, after the single store read
(line 216) has produced `stored`. Absence (or the falsy empty string)
yields `null`; malformed data throws; a valid array is returned as parsed,
or shorthand-encoded when requested. -/
def getCore (env : JSEnv) (format : String) (stored : Option String) :
    Except String (Option JSVal) :=
  match stored with
  | none => .ok none
  | some txt =>
    if txt = "" then .ok none
    else
      match env.jsonParse txt with
      | .error e => .error e
      | .ok parsed =>
        match (if isArray parsed then jsEvery validateStrategy (elemsOf parsed) else .ok false) with
        | .error e => .error e
        | .ok false =>
          .error "Invalid strategy format detected in localStorage, check you are on the right website"
        | .ok true =>
          if format = "shorthand" then
            match env.toShorthand parsed with
            | .error e => .error e
            | .ok sh => .ok (some sh)
          else .ok (some parsed)

/-- Outcome of one `getStrategies` call: the returned/thrown value and the
store afterwards. -/
structure GetOutcome : Type where
  result : Except String (Option JSVal)
  store : Store

/-- Lines 214-235: `getStrategies`. Its only store interaction is
`localStorage.getItem(STRATEGY_KEY)` on line 216; it never writes. -/
def getStrategies (env : JSEnv) (format : String) (store : Store) : GetOutcome :=
  ⟨getCore env format (store STRATEGY_KEY), store⟩

end StrategyManager

/-- Line 239: evaluating the script file runs
`StrategyManager.exportStrategies()` once at top level — with the default
argument `format = "original"` — and invokes no other operation. -/
def scriptTopLevel (env : JSEnv) (store : Store) : StrategyManager.ExportOutcome :=
  StrategyManager.exportStrategies env "original" store

/-- A minimal valid strategy: truthy label, boolean `isDefault`, empty
`blocks` array. -/
def sampleStrategy : JSVal :=
  .obj [("label", .str "x"), ("isDefault", .bool true), ("blocks", .arr [])]

/-- A strategy whose `blocks` array contains `null` (JSON-representable),
driving `validateBlock` into a member access on `null`. -/
def badStrategy : JSVal :=
  .obj [("label", .str "x"), ("isDefault", .bool true), ("blocks", .arr [.null])]

/-- A concrete host environment used to instantiate universally quantified
theorems: its parser accepts exactly the text `"[]"` (the JSON form of the
empty strategy array). -/
def sampleEnv : JSEnv where
  jsonParse := fun s => if s = "[]" then .ok (.arr []) else .error "Unexpected token"
  jsonStringify := fun _ => "[]"
  toShorthand := fun v => .ok v
  fromShorthand := fun v => .ok v
  today := "2026-10-12"

/-! ## Helper lemmas -/

theorem truthy_ne_null {v : JSVal} (h : truthy v = true) : v ≠ JSVal.null := by
  cases v <;> simp_all [truthy]

theorem truthy_ne_undef {v : JSVal} (h : truthy v = true) : v ≠ JSVal.undefined := by
  cases v <;> simp_all [truthy]

theorem getField_ok {v : JSVal} (h1 : v ≠ JSVal.null) (h2 : v ≠ JSVal.undefined) (f : String) :
    getField v f = .ok (jsGet v f) := by
  cases v with
  | undefined => exact absurd rfl h2
  | null => exact absurd rfl h1
  | bool b => rfl
  | num q => rfl
  | str s => rfl
  | arr xs => rfl
  | obj fields => rfl

theorem jsEvery_ok_true_iff (p : JSVal → Except String Bool) (xs : List JSVal) :
    jsEvery p xs = .ok true ↔ ∀ x ∈ xs, p x = .ok true := by
  induction xs with
  | nil => simp [jsEvery]
  | cons x xs ih =>
    simp only [jsEvery]
    cases h : p x with
    | error e => simp [h]
    | ok b =>
      cases b with
      | false => simp [h]
      | true => simp [h, ih]

theorem includesStr_eq_true_iff (l : List String) (v : JSVal) :
    includesStr l v = true ↔ ∃ s, v = .str s ∧ s ∈ l := by
  cases v <;> simp [includesStr]

theorem isNumber_eq_true_iff (v : JSVal) : isNumber v = true ↔ ∃ q, v = .num q := by
  cases v <;> simp [isNumber]

theorem isBoolean_eq_true_iff (v : JSVal) : isBoolean v = true ↔ ∃ b, v = .bool b := by
  cases v <;> simp [isBoolean]

theorem isArray_eq_true_iff (v : JSVal) : isArray v = true ↔ ∃ xs, v = .arr xs := by
  cases v <;> simp [isArray]

theorem validActionTypes_mem_ne_empty :
    ∀ s ∈ StrategyValidator.validActionTypes, s ≠ "" := by decide

theorem truthy_obj (fields : List (String × JSVal)) : truthy (.obj fields) = true := rfl

theorem isObjectType_obj (fields : List (String × JSVal)) :
    isObjectType (.obj fields) = true := rfl

theorem getField_obj (fields : List (String × JSVal)) (f : String) :
    getField (.obj fields) f = .ok (jsGet (.obj fields) f) := rfl

theorem validateCondition_total {c : JSVal} (h1 : c ≠ JSVal.null) (h2 : c ≠ JSVal.undefined) :
    ∃ b, StrategyValidator.validateCondition c = .ok b := by
  simp only [StrategyValidator.validateCondition, getField_ok h1 h2]
  split_ifs <;> exact ⟨_, rfl⟩

theorem validateAction_total {a : JSVal} (h1 : a ≠ JSVal.null) (h2 : a ≠ JSVal.undefined) :
    ∃ b, StrategyValidator.validateAction a = .ok b := by
  simp only [StrategyValidator.validateAction, getField_ok h1 h2]
  split_ifs <;> exact ⟨_, rfl⟩

theorem validateBlock_total {x : JSVal} (h1 : x ≠ JSVal.null) (h2 : x ≠ JSVal.undefined) :
    ∃ b, StrategyValidator.validateBlock x = .ok b := by
  simp only [StrategyValidator.validateBlock, getField_ok h1 h2]
  by_cases hg : (!truthy (jsGet x "id") || !truthy (jsGet x "type") ||
      !truthy (jsGet x "on") || !truthy (jsGet x "do")) = true
  · exact ⟨false, by rw [if_pos hg]⟩
  · rw [if_neg hg]
    simp only [Bool.or_eq_true, Bool.not_eq_true', not_or, Bool.not_eq_false] at hg
    obtain ⟨⟨⟨hid, hty⟩, hon⟩, hdo⟩ := hg
    by_cases hb : (!includesStr ["bets", "profit"] (jsGet x "type")) = true
    · exact ⟨false, by rw [if_pos hb]⟩
    · rw [if_neg hb]
      obtain ⟨c, hc⟩ := validateCondition_total (truthy_ne_null hon) (truthy_ne_undef hon)
      rw [hc]
      cases c with
      | false => exact ⟨false, rfl⟩
      | true => exact validateAction_total (truthy_ne_null hdo) (truthy_ne_undef hdo)

theorem jsEvery_total (p : JSVal → Except String Bool) (xs : List JSVal)
    (h : ∀ x ∈ xs, ∃ b, p x = .ok b) : ∃ b, jsEvery p xs = .ok b := by
  induction xs with
  | nil => exact ⟨true, rfl⟩
  | cons x xs ih =>
    obtain ⟨b, hb⟩ := h x (List.mem_cons_self x xs)
    cases b with
    | false => exact ⟨false, by simp [jsEvery, hb]⟩
    | true =>
      obtain ⟨c, hc⟩ := ih fun y hy => h y (List.mem_cons_of_mem x hy)
      exact ⟨c, by simp [jsEvery, hb, hc]⟩

/-- Shared success-path computation: on a non-empty stored text that parses
to an array of valid strategies, `exportCore` with format `original`
returns the raw text and downloads it once. -/
theorem exportCore_original_of_valid (env : JSEnv) (txt : String) (l : List JSVal)
    (hne : txt ≠ "") (hp : env.jsonParse txt = .ok (.arr l))
    (hv : ∀ x ∈ l, StrategyManager.validateStrategy x = .ok true) :
    StrategyManager.exportCore env "original" (some txt)
      = (.ok (some txt), [(StrategyManager.fileName "original" env.today, txt)]) := by
  have hev : jsEvery StrategyManager.validateStrategy l = .ok true :=
    (jsEvery_ok_true_iff _ _).2 hv
  simp [StrategyManager.exportCore, hne, hp, isArray, elemsOf, hev]

/-! ## The claims -/

/-- C1: `validateStrategy s` is `true` exactly when `s` is a truthy value of
object type (a non-null object or array), `s.label` is truthy, `s.blocks`
is an array, `s.isDefault` is strictly a boolean, and every element of
`s.blocks` passes `validateBlock`; in particular a strategy with a truthy
label, boolean `isDefault` and empty `blocks` array validates. -/
theorem validateStrategy_ok_true_iff :
    (∀ v : JSVal, StrategyManager.validateStrategy v = .ok true ↔
      (truthy v = true ∧ isObjectType v = true ∧
       truthy (jsGet v "label") = true ∧
       isArray (jsGet v "blocks") = true ∧
       isBoolean (jsGet v "isDefault") = true ∧
       ∀ x ∈ elemsOf (jsGet v "blocks"), StrategyValidator.validateBlock x = .ok true)) ∧
    StrategyManager.validateStrategy sampleStrategy = .ok true := by
  constructor
  · intro v
    cases v with
    | undefined => simp [StrategyManager.validateStrategy, truthy]
    | null => simp [StrategyManager.validateStrategy, truthy]
    | bool b => simp [StrategyManager.validateStrategy, isObjectType]
    | num q => simp [StrategyManager.validateStrategy, isObjectType]
    | str s => simp [StrategyManager.validateStrategy, isObjectType]
    | arr xs =>
      simp [StrategyManager.validateStrategy, truthy, isObjectType, getField, jsGet]
    | obj fields =>
      simp only [StrategyManager.validateStrategy, truthy_obj, isObjectType_obj,
        getField_obj, Bool.not_true, Bool.or_self, Bool.not_false, if_false,
        Bool.false_or, ite_false, true_and]
      by_cases hL : truthy (jsGet (.obj fields) "label") = true
      · by_cases hB : isArray (jsGet (.obj fields) "blocks") = true
        · by_cases hD : isBoolean (jsGet (.obj fields) "isDefault") = true
          · simp [hL, hB, hD, jsEvery_ok_true_iff]
          · simp [hL, hB, hD]
        · simp [hL, hB]
      · simp [hL]
  · rfl

/-- C2: `validateBlock` checks presence of `id`, `type`, `on`, `do` by
truthiness, so a block whose `id` field is the number `0` is rejected no
matter what the other fields hold; by contrast `validateAction` checks
presence of `value` by definedness, so an action with a valid `type` and
`value` equal to `0` is accepted. -/
theorem validateBlock_id_zero_vs_action_value_zero :
    (∀ fields : List (String × JSVal), lookupField fields "id" = some (.num 0) →
      StrategyValidator.validateBlock (.obj fields) = .ok false) ∧
    (∀ (fields : List (String × JSVal)) (s : String),
      lookupField fields "type" = some (.str s) →
      s ∈ StrategyValidator.validActionTypes →
      lookupField fields "value" = some (.num 0) →
      StrategyValidator.validateAction (.obj fields) = .ok true) := by
  constructor
  · intro fields hid
    simp [StrategyValidator.validateBlock, getField, hid, truthy]
  · intro fields s hty hs hv
    have hne : s ≠ "" := validActionTypes_mem_ne_empty s hs
    simp [StrategyValidator.validateAction, getField, hty, hv, truthy, hne,
      isUndefined, isNumber, includesStr, hs]

/-- C3: `validateAction a` is `true` exactly when the member access
`a.type` yields one of the 14 enumerated action type strings and `a.value`
yields a defined value of numeric type (so value `0` is accepted and an
undefined value is rejected, as is any receiver on which the accesses
throw). -/
theorem validateAction_ok_true_iff (a : JSVal) :
    StrategyValidator.validateAction a = .ok true ↔
      ∃ s q, getField a "type" = .ok (.str s) ∧
        s ∈ StrategyValidator.validActionTypes ∧
        getField a "value" = .ok (.num q) := by
  cases ha : getField a "type" with
  | error e =>
    have hval : ∃ ea, getField a "value" = .error ea := by
      cases a <;> simp_all [getField]
    obtain ⟨ea, hea⟩ := hval
    simp [StrategyValidator.validateAction, ha, hea]
  | ok ty =>
    have hval : getField a "value" = .ok (jsGet a "value") := by
      cases a <;> simp_all [getField, jsGet]
    simp only [StrategyValidator.validateAction, ha, hval]
    constructor
    · intro h
      split_ifs at h with h1 h2 h3
      · exact absurd h (by simp)
      · exact absurd h (by simp)
      · exact absurd h (by simp)
      · push_neg at h1
        rcases (includesStr_eq_true_iff _ _).1 (by simpa using h2) with ⟨s, rfl, hs⟩
        rcases (isNumber_eq_true_iff _).1 (by simpa using h3) with ⟨q, hq⟩
        exact ⟨s, q, rfl, hs, by rw [hq]⟩
    · rintro ⟨s, q, hty, hs, hq⟩
      obtain rfl : ty = .str s := by simpa using hty
      have hq2 : jsGet a "value" = .num q := by
        simpa using hq
      have hne : s ≠ "" := validActionTypes_mem_ne_empty s hs
      simp [truthy, hne, hq2, isUndefined, isNumber, includesStr, hs]

/-- C4: when the stored text parses to an array whose elements all pass
`validateStrategy`, `exportStrategies` with format `original` returns the
stored raw text itself, byte for byte, and downloads exactly that text
(no re-serialization of the parsed value). -/
theorem exportStrategies_original_passthrough (env : JSEnv) (store : Store)
    (txt : String) (l : List JSVal) (hs : store STRATEGY_KEY = some txt) (hne : txt ≠ "")
    (hp : env.jsonParse txt = .ok (.arr l))
    (hv : ∀ x ∈ l, StrategyManager.validateStrategy x = .ok true) :
    (StrategyManager.exportStrategies env "original" store).result = .ok (some txt) ∧
    (StrategyManager.exportStrategies env "original" store).downloads
      = [(StrategyManager.fileName "original" env.today, txt)] := by
  have h := exportCore_original_of_valid env txt l hne hp hv
  simp [StrategyManager.exportStrategies, hs, h]

/-- Witness for C4 at the concrete store holding the text `[]`. -/
theorem exportStrategies_original_passthrough_witness :
    (StrategyManager.exportStrategies sampleEnv "original" (fun _ => some "[]")).result
      = .ok (some "[]") ∧
    (StrategyManager.exportStrategies sampleEnv "original" (fun _ => some "[]")).downloads
      = [(StrategyManager.fileName "original" sampleEnv.today, "[]")] :=
  exportStrategies_original_passthrough sampleEnv (fun _ => some "[]") "[]" [] rfl
    (by decide) (by simp [sampleEnv]) (by simp)

/-- C5: for a file whose text parses (with format `original`) to an array
in which every element passes `validateStrategy`, `importStrategies`
resolves with exactly the parsed array and writes its `JSON.stringify`
serialization to the store under the fixed key. -/
theorem importStrategies_success_persists (env : JSEnv) (store : Store) (content : String)
    (l : List JSVal) (hp : env.jsonParse content = .ok (.arr l))
    (hv : ∀ x ∈ l, StrategyManager.validateStrategy x = .ok true) :
    (StrategyManager.importStrategies env (some (.ok content)) "original" store).result
      = .ok (.arr l) ∧
    (StrategyManager.importStrategies env (some (.ok content)) "original" store).store
        STRATEGY_KEY = some (env.jsonStringify (.arr l)) := by
  have hev : jsEvery StrategyManager.validateStrategy l = .ok true :=
    (jsEvery_ok_true_iff _ _).2 hv
  have hpipe : StrategyManager.importPipeline env content "original" = .ok (.arr l) := by
    simp [StrategyManager.importPipeline, hp, isArray, elemsOf, hev]
  simp [StrategyManager.importStrategies, hpipe, setItem]

/-- Witness for C5 at the concrete file content `[]`. -/
theorem importStrategies_success_persists_witness :
    (StrategyManager.importStrategies sampleEnv (some (.ok "[]")) "original"
        (fun _ => none)).result = .ok (.arr []) ∧
    (StrategyManager.importStrategies sampleEnv (some (.ok "[]")) "original"
        (fun _ => none)).store STRATEGY_KEY = some (sampleEnv.jsonStringify (.arr [])) :=
  importStrategies_success_persists sampleEnv (fun _ => none) "[]" []
    (by simp [sampleEnv]) (by simp)

/-- C6: every failure of the import pipeline (parse error, shorthand decode
error, or validation failure) rejects with `Invalid strategy file: `
followed by the underlying message, and whenever the result is a rejection
the store is unchanged — the write happens only after validation
succeeds. -/
theorem importStrategies_failure_wraps_and_preserves_store (env : JSEnv) (store : Store)
    (content : String) (format : String) :
    (∀ m, (StrategyManager.importStrategies env (some (.ok content)) format store).result
        = .error m →
      (StrategyManager.importStrategies env (some (.ok content)) format store).store = store) ∧
    (∀ m, env.jsonParse content = .error m →
      (StrategyManager.importStrategies env (some (.ok content)) format store).result
        = .error ("Invalid strategy file: " ++ m)) ∧
    (∀ v m, env.jsonParse content = .ok v → format = "shorthand" →
      env.fromShorthand v = .error m →
      (StrategyManager.importStrategies env (some (.ok content)) format store).result
        = .error ("Invalid strategy file: " ++ m)) ∧
    (∀ v₀ v, env.jsonParse content = .ok v₀ →
      (if format = "shorthand" then env.fromShorthand v₀ = .ok v else v = v₀) →
      (isArray v = false ∨ jsEvery StrategyManager.validateStrategy (elemsOf v) = .ok false) →
      (StrategyManager.importStrategies env (some (.ok content)) format store).result
        = .error "Invalid strategy file: Invalid strategy format") := by
  refine ⟨?_, ?_, ?_, ?_⟩
  · intro m hm
    simp only [StrategyManager.importStrategies] at hm ⊢
    cases hpipe : StrategyManager.importPipeline env content format with
    | error e => simp [hpipe]
    | ok p => rw [hpipe] at hm; simp at hm
  · intro m hm
    simp [StrategyManager.importStrategies, StrategyManager.importPipeline, hm]
  · intro v m hv hf hdec
    simp [StrategyManager.importStrategies, StrategyManager.importPipeline, hv, hf, hdec]
  · intro v₀ v hv₀ hdec hbad
    have hpipe : StrategyManager.importPipeline env content format
        = .error "Invalid strategy format" := by
      by_cases hf : format = "shorthand"
      · have hdec2 : env.fromShorthand v₀ = .ok v := by simpa [hf] using hdec
        rcases hbad with hb | hb
        · rcases Bool.eq_false_or_eq_true (isArray v) with hA | hA
          · simp [hA] at hb
          · simp [StrategyManager.importPipeline, hv₀, hf, hdec2, hA]
        · rcases Bool.eq_false_or_eq_true (isArray v) with hA | hA
          · simp [StrategyManager.importPipeline, hv₀, hf, hdec2, hA, hb]
          · simp [StrategyManager.importPipeline, hv₀, hf, hdec2, hA]
      · have hdec2 : v = v₀ := by simpa [hf] using hdec
        subst hdec2
        rcases hbad with hb | hb
        · rcases Bool.eq_false_or_eq_true (isArray v) with hA | hA
          · simp [hA] at hb
          · simp [StrategyManager.importPipeline, hv₀, hf, hA]
        · rcases Bool.eq_false_or_eq_true (isArray v) with hA | hA
          · simp [StrategyManager.importPipeline, hv₀, hf, hA, hb]
          · simp [StrategyManager.importPipeline, hv₀, hf, hA]
    simp [StrategyManager.importStrategies, hpipe]

/-- C7: when the store holds nothing under the fixed key, both
`exportStrategies` and `getStrategies` return `null` without raising, and
`exportStrategies` triggers no download. -/
theorem absent_store_returns_null (env : JSEnv) (store : Store) (format : String)
    (h : store STRATEGY_KEY = none) :
    (StrategyManager.exportStrategies env format store).result = .ok none ∧
    (StrategyManager.exportStrategies env format store).downloads = [] ∧
    (StrategyManager.getStrategies env format store).result = .ok none := by
  simp [StrategyManager.exportStrategies, StrategyManager.getStrategies,
    StrategyManager.exportCore, StrategyManager.getCore, h]

/-- Witness for C7 at the everywhere-empty store. -/
theorem absent_store_returns_null_witness :
    (StrategyManager.exportStrategies sampleEnv "original" (fun _ => none)).result
      = .ok none ∧
    (StrategyManager.exportStrategies sampleEnv "original" (fun _ => none)).downloads = [] ∧
    (StrategyManager.getStrategies sampleEnv "original" (fun _ => none)).result = .ok none :=
  absent_store_returns_null sampleEnv (fun _ => none) "original" rfl

/-- C8 counterexample: `validateStrategy` is not total on
JSON-representable inputs — on a strategy whose `blocks` array contains
`null` it does not return a boolean but throws a `TypeError` from the
member access `block.id` inside `validateBlock`. -/
theorem validateStrategy_throws_on_null_block :
    StrategyManager.validateStrategy badStrategy
      = .error "TypeError: Cannot read properties of null" := rfl

/-- C8 (amended): `validateStrategy` returns a boolean (never throws) on
every deserialized value whose `blocks` field, when it is an array,
contains no `null` or `undefined` element; a `null`/`undefined` block
element instead makes the field access in `validateBlock` throw a
`TypeError`. -/
theorem validateStrategy_total_without_null_blocks (v : JSVal)
    (h : ∀ x ∈ elemsOf (jsGet v "blocks"), x ≠ JSVal.null ∧ x ≠ JSVal.undefined) :
    ∃ b, StrategyManager.validateStrategy v = .ok b := by
  by_cases hg : (!truthy v || !isObjectType v) = true
  · exact ⟨false, by simp only [StrategyManager.validateStrategy, if_pos hg]⟩
  · have hv1 : v ≠ JSVal.null := by rintro rfl; simp [truthy] at hg
    have hv2 : v ≠ JSVal.undefined := by rintro rfl; simp [truthy] at hg
    simp only [StrategyManager.validateStrategy, if_neg hg, getField_ok hv1 hv2]
    by_cases hg2 : (!truthy (jsGet v "label") || !isArray (jsGet v "blocks")) = true
    · exact ⟨false, by rw [if_pos hg2]⟩
    · rw [if_neg hg2]
      by_cases hd : (!isBoolean (jsGet v "isDefault")) = true
      · exact ⟨false, by rw [if_pos hd]⟩
      · rw [if_neg hd]
        exact jsEvery_total _ _ fun x hx => validateBlock_total (h x hx).1 (h x hx).2

/-- Witness for the amended C8 at a concrete strategy with an empty blocks
array. -/
theorem validateStrategy_total_without_null_blocks_witness :
    ∃ b, StrategyManager.validateStrategy sampleStrategy = .ok b :=
  validateStrategy_total_without_null_blocks sampleStrategy (by
    intro x hx
    simp [sampleStrategy, jsGet, lookupField, elemsOf] at hx)

/-- C9: the operations depend on the store only through the single key
`strategies_saved`: the results of `exportStrategies` and `getStrategies`
are unchanged if the value at that key is unchanged, and both leave the
store exactly as it was; `importStrategies` never reads the store, leaves
every other key unchanged, and leaves the whole store unchanged whenever it
rejects — only a successful import writes the key. -/
theorem store_frame_conditions (env : JSEnv) (format : String) :
    (∀ s₁ s₂ : Store, s₁ STRATEGY_KEY = s₂ STRATEGY_KEY →
       (StrategyManager.exportStrategies env format s₁).result
         = (StrategyManager.exportStrategies env format s₂).result ∧
       (StrategyManager.exportStrategies env format s₁).downloads
         = (StrategyManager.exportStrategies env format s₂).downloads) ∧
    (∀ s : Store, (StrategyManager.exportStrategies env format s).store = s) ∧
    (∀ s₁ s₂ : Store, s₁ STRATEGY_KEY = s₂ STRATEGY_KEY →
       (StrategyManager.getStrategies env format s₁).result
         = (StrategyManager.getStrategies env format s₂).result) ∧
    (∀ s : Store, (StrategyManager.getStrategies env format s).store = s) ∧
    (∀ (fc : Option (Except String String)) (s₁ s₂ : Store),
       (StrategyManager.importStrategies env fc format s₁).result
         = (StrategyManager.importStrategies env fc format s₂).result) ∧
    (∀ (fc : Option (Except String String)) (s : Store) (k : String), k ≠ STRATEGY_KEY →
       (StrategyManager.importStrategies env fc format s).store k = s k) ∧
    (∀ (fc : Option (Except String String)) (s : Store) (m : String),
       (StrategyManager.importStrategies env fc format s).result = .error m →
       (StrategyManager.importStrategies env fc format s).store = s) := by
  refine ⟨?_, fun s => rfl, ?_, fun s => rfl, ?_, ?_, ?_⟩
  · intro s₁ s₂ h
    constructor <;> simp [StrategyManager.exportStrategies, h]
  · intro s₁ s₂ h
    simp [StrategyManager.getStrategies, h]
  · intro fc s₁ s₂
    rcases fc with _ | fr
    · rfl
    · rcases fr with e | c
      · rfl
      · simp only [StrategyManager.importStrategies]
        cases StrategyManager.importPipeline env c format <;> rfl
  · intro fc s k hk
    rcases fc with _ | fr
    · rfl
    · rcases fr with e | c
      · rfl
      · simp only [StrategyManager.importStrategies]
        cases StrategyManager.importPipeline env c format with
        | error e => rfl
        | ok p => simp [setItem, hk]
  · intro fc s m hm
    rcases fc with _ | fr
    · rfl
    · rcases fr with e | c
      · rfl
      · simp only [StrategyManager.importStrategies] at hm ⊢
        cases hpipe : StrategyManager.importPipeline env c format with
        | error e => simp [hpipe]
        | ok p => rw [hpipe] at hm; simp at hm

/-- C10: evaluating the script file invokes `exportStrategies` once at top
level with the default format `original` and nothing else, so merely
loading the script attempts an export: on a store holding a valid strategy
array it already triggers the download of the stored text, without any
caller action. -/
theorem script_load_invokes_export_original (env : JSEnv) (store : Store) :
    scriptTopLevel env store = StrategyManager.exportStrategies env "original" store ∧
    (∀ (txt : String) (l : List JSVal), store STRATEGY_KEY = some txt → txt ≠ "" →
      env.jsonParse txt = .ok (.arr l) →
      (∀ x ∈ l, StrategyManager.validateStrategy x = .ok true) →
      (scriptTopLevel env store).downloads
        = [(StrategyManager.fileName "original" env.today, txt)]) := by
  refine ⟨rfl, ?_⟩
  intro txt l hs hne hp hv
  have h := exportCore_original_of_valid env txt l hne hp hv
  simp [scriptTopLevel, StrategyManager.exportStrategies, hs, h]
